import Mathlib

/-!
# CSV-SQL Streaming Loader — verification of the core spec claims

Shallow embedding of the core logic of the `CSV-SQL-Streaming-Loader`
repository (Rust) into Lean 4:

* `src/types.rs`   — `SqlType`, `SqlType::infer_from_str`, `SqlType::merge`
  (the type lattice used for schema inference);
* `src/schema.rs`  — `ColumnSchema` (`update`, `finalize`, `confidence`)
  and `TableSchema::validate_table_name`;
* `src/db/batch.rs` — `BatchProcessor::process_batch` (retry with
  exponential backoff) and `BatchIterator::next` (row batching);
* `src/db/copy.rs` — `CopyLoader::rows_to_csv` (CSV encoding for COPY).

Modelling conventions:

* Rust `String`/`&str` values that the code inspects character by
  character are modelled as `List Char`; opaque error messages that are
  only carried along are modelled as `String`.
* Rust `usize`/`u64` become `Nat`, `iN` ranges are explicit `Int` bounds.
* `Duration` values (backoff) become `Nat` (an abstract number of time
  units); `sleep d` is modelled by accumulating `d` into a total.
* `f64` arithmetic in `confidence` is modelled exactly over `ℚ`; every
  value the claims mention (`0`, `0.6`, `0.3`, `1`) is exactly
  representable, and `nullCount = sampleCount` makes the null ratio
  exactly `1` in `f64` as well.
* The external parsers the code calls (`str::parse` for `bool`/ints/
  floats, `chrono` for dates) are modelled by executable Lean functions
  following the grammar of those libraries; see the comments at each.
-/

/-- The SQL types the loader can infer (`SqlType` in `src/types.rs`). -/
inductive SqlType where
  | Null
  | Boolean
  | SmallInt
  | Integer
  | BigInt
  | Real
  | DoublePrecision
  | Timestamp
  | Date
  | Text
  deriving DecidableEq, Repr, Fintype

namespace SqlType

/-- All ten type tags, for exhaustive checking. -/
def allTags : List SqlType :=
  [Null, Boolean, SmallInt, Integer, BigInt, Real, DoublePrecision,
   Timestamp, Date, Text]

/-- `SqlType::merge` from `src/types.rs` (lines 122–163): merge two types
to find the most general type.  The match arms are translated in source
order; Rust `match` takes the first arm that applies. -/
def merge (a b : SqlType) : SqlType :=
  -- (Text, _) | (_, Text) => Text
  if a = Text ∨ b = Text then Text
  -- (Null, x) | (x, Null) => x.clone()
  else if a = Null then b
  else if b = Null then a
  -- (a, b) if a == b => a.clone()
  else if a = b then a
  -- (SmallInt, Integer) | (Integer, SmallInt) => Integer
  else if (a = SmallInt ∧ b = Integer) ∨ (a = Integer ∧ b = SmallInt) then Integer
  -- (SmallInt, BigInt) | (BigInt, SmallInt) => BigInt
  else if (a = SmallInt ∧ b = BigInt) ∨ (a = BigInt ∧ b = SmallInt) then BigInt
  -- (Integer, BigInt) | (BigInt, Integer) => BigInt
  else if (a = Integer ∧ b = BigInt) ∨ (a = BigInt ∧ b = Integer) then BigInt
  -- (SmallInt | Integer | BigInt, Real | DoublePrecision) | (sym) => DoublePrecision
  else if ((a = SmallInt ∨ a = Integer ∨ a = BigInt) ∧ (b = Real ∨ b = DoublePrecision)) ∨
          ((a = Real ∨ a = DoublePrecision) ∧ (b = SmallInt ∨ b = Integer ∨ b = BigInt)) then
    DoublePrecision
  -- (Real, DoublePrecision) | (DoublePrecision, Real) => DoublePrecision
  else if (a = Real ∧ b = DoublePrecision) ∨ (a = DoublePrecision ∧ b = Real) then
    DoublePrecision
  -- (Date, Timestamp) | (Timestamp, Date) => Timestamp
  else if (a = Date ∧ b = Timestamp) ∨ (a = Timestamp ∧ b = Date) then Timestamp
  -- (Boolean, _) | (_, Boolean) => Text
  else if a = Boolean ∨ b = Boolean then Text
  -- (Date | Timestamp, numeric) | (numeric, Date | Timestamp) => Text
  else if ((a = Date ∨ a = Timestamp) ∧
             (b = SmallInt ∨ b = Integer ∨ b = BigInt ∨ b = Real ∨ b = DoublePrecision)) ∨
          ((a = SmallInt ∨ a = Integer ∨ a = BigInt ∨ a = Real ∨ a = DoublePrecision) ∧
             (b = Date ∨ b = Timestamp)) then Text
  -- _ => Text
  else Text

/-- An integer tag, in the sense of the spec's rule table (§4.1). -/
def isIntTag (t : SqlType) : Bool :=
  match t with
  | SmallInt | Integer | BigInt => true
  | _ => false

/-- A float tag, in the sense of the spec's rule table (§4.1). -/
def isFloatTag (t : SqlType) : Bool :=
  match t with
  | Real | DoublePrecision => true
  | _ => false

/-- A numeric tag (integer or float), in the sense of the spec's rule
table (§4.1). -/
def isNumericTag (t : SqlType) : Bool := isIntTag t || isFloatTag t

/-- The merge rule table exactly as the spec (§4.1) lists it, each rule
taken in the listed order; written from the SPEC's words, to be compared
with `SqlType.merge` (which is written from the source). -/
def specMergeTable (a b : SqlType) : SqlType :=
  -- either side Text ⇒ Text
  if a = Text ∨ b = Text then Text
  -- either side Null ⇒ the other side
  else if a = Null then b
  else if b = Null then a
  -- equal tags ⇒ same tag
  else if a = b then a
  -- integer widening
  else if (a = SmallInt ∧ b = Integer) ∨ (a = Integer ∧ b = SmallInt) then Integer
  else if (a = SmallInt ∧ b = BigInt) ∨ (a = BigInt ∧ b = SmallInt) then BigInt
  else if (a = Integer ∧ b = BigInt) ∨ (a = BigInt ∧ b = Integer) then BigInt
  -- any integer tag with any float tag ⇒ Double
  else if (isIntTag a ∧ isFloatTag b) ∨ (isFloatTag a ∧ isIntTag b) then DoublePrecision
  -- Real ∪ Double = Double
  else if (a = Real ∧ b = DoublePrecision) ∨ (a = DoublePrecision ∧ b = Real) then
    DoublePrecision
  -- Date ∪ Timestamp = Timestamp
  else if (a = Date ∧ b = Timestamp) ∨ (a = Timestamp ∧ b = Date) then Timestamp
  -- Boolean with anything other than Boolean/Null ⇒ Text
  else if a = Boolean ∨ b = Boolean then Text
  -- Date/Timestamp combined with any numeric tag ⇒ Text
  else if ((a = Date ∨ a = Timestamp) ∧ isNumericTag b) ∨
          (isNumericTag a ∧ (b = Date ∨ b = Timestamp)) then Text
  -- any unlisted combination ⇒ Text
  else Text

end SqlType

/-- **C1.** For every pair of type tags, `SqlType::merge` agrees with the
rule table of spec §4.1: Text absorbs, Null is the identity, equal tags
are fixed, integers widen, integer∪float and Real∪Double give
DoublePrecision, Date∪Timestamp gives Timestamp, Boolean with anything
other than Boolean/Null gives Text, Date/Timestamp with numerics give
Text, and every unlisted combination gives Text. -/
theorem merge_matches_spec_rule_table :
    ∀ a b : SqlType, SqlType.merge a b = SqlType.specMergeTable a b := by
  decide

/-- **C2.** `merge` is commutative and associative, and `Null` is a left
identity for it. -/
theorem merge_comm_assoc_null_id :
    (∀ a b : SqlType, SqlType.merge a b = SqlType.merge b a) ∧
    (∀ a b c : SqlType,
      SqlType.merge (SqlType.merge a b) c = SqlType.merge a (SqlType.merge b c)) ∧
    (∀ t : SqlType, SqlType.merge SqlType.Null t = t) := by
  refine ⟨by decide, by decide, by decide⟩

/-! ## Value parsing (`SqlType::infer_from_str`, `src/types.rs` lines 39–119)

The Rust code delegates to `str::parse::<bool/i16/i32/i64/f32/f64>` and to
`chrono` format parsing.  Those external parsers are modelled here as
executable functions over `List Char`, following the documented grammar of
the Rust standard library and of `chrono`'s format parser. -/

namespace Parse

/-- ASCII lowercase, as used by Rust `eq_ignore_ascii_case`. -/
def toLowerAscii (c : Char) : Char :=
  if 'A' ≤ c ∧ c ≤ 'Z' then Char.ofNat (c.toNat + 32) else c

/-- Rust `str::eq_ignore_ascii_case`. -/
def eqIgnoreAsciiCase (a b : List Char) : Bool :=
  a.map toLowerAscii == b.map toLowerAscii

/-- Numeric value of a digit string (most significant first). -/
def digitsToNat (ds : List Char) : Nat :=
  ds.foldl (fun acc c => 10 * acc + (c.toNat - 48)) 0

/-- Rust `str::parse::<bool>` succeeds exactly on `"true"` and `"false"`
(case-sensitive). -/
def parseBoolOk (s : List Char) : Bool :=
  s == "true".toList || s == "false".toList

/-- Rust `str::parse::<iN>`: an optional sign followed by one or more
ASCII digits, with the resulting value in `[lo, hi]` (out-of-range input
is a parse error). -/
def parseIntOk (lo hi : Int) (s : List Char) : Bool :=
  let signAndDigits : Int × List Char :=
    match s with
    | '+' :: rest => (1, rest)
    | '-' :: rest => (-1, rest)
    | _ => (1, s)
  let ds := signAndDigits.2
  let v : Int := signAndDigits.1 * (digitsToNat ds : Int)
  !ds.isEmpty && ds.all Char.isDigit && decide (lo ≤ v) && decide (v ≤ hi)

/-- Outcome of Rust `str::parse::<fN>` on a string: a parse error, a NaN
or infinity literal, or a finite decimal `m × 10^e` (exact value, before
rounding to the float format). -/
inductive FloatParse where
  | fail
  | nanLit
  | infLit
  | finite (m : Int) (e : Int)
  deriving DecidableEq, Repr

/-- Split a float literal at the first `e`/`E` (exponent marker). -/
def splitExpMarker : List Char → List Char × Option (List Char)
  | [] => ([], none)
  | c :: rest =>
    if c = 'e' ∨ c = 'E' then ([], some rest)
    else
      match splitExpMarker rest with
      | (m, e) => (c :: m, e)

/-- Parse the exponent part `Sign? Digit+` of a float literal. -/
def parseExpPart (s : List Char) : Option Int :=
  let signAndDigits : Int × List Char :=
    match s with
    | '+' :: rest => (1, rest)
    | '-' :: rest => (-1, rest)
    | _ => (1, s)
  let ds := signAndDigits.2
  if !ds.isEmpty && ds.all Char.isDigit then
    some (signAndDigits.1 * (digitsToNat ds : Int))
  else none

/-- Parse the mantissa `Digit* ('.' Digit*)?` (not both parts empty) of a
float literal, returning `(m, e)` with value `m × 10^e`. -/
def parseMantissaPart (s : List Char) : Option (Nat × Int) :=
  let d1 := s.takeWhile Char.isDigit
  let rest := s.dropWhile Char.isDigit
  match rest with
  | [] => if d1.isEmpty then none else some (digitsToNat d1, 0)
  | '.' :: d2 =>
    if d2.all Char.isDigit && (!d1.isEmpty || !d2.isEmpty) then
      some (digitsToNat (d1 ++ d2), -(d2.length : Int))
    else none
  | _ => none

/-- Rust `str::parse::<f32/f64>` grammar:
`Sign? ('inf' | 'infinity' | 'nan' | Number)` with the special words
matched case-insensitively, and
`Number ::= Digit+ '.'? Digit* Exp? | '.' Digit+ Exp?`,
`Exp ::= ('e'|'E') Sign? Digit+`. -/
def parseFloatVal (s : List Char) : FloatParse :=
  let signAndBody : Bool × List Char :=
    match s with
    | '+' :: rest => (false, rest)
    | '-' :: rest => (true, rest)
    | _ => (false, s)
  let neg := signAndBody.1
  let body := signAndBody.2
  if eqIgnoreAsciiCase body ("inf".toList) || eqIgnoreAsciiCase body ("infinity".toList) then
    FloatParse.infLit
  else if eqIgnoreAsciiCase body ("nan".toList) then FloatParse.nanLit
  else
    match splitExpMarker body with
    | (mant, expPart) =>
      match parseMantissaPart mant with
      | none => FloatParse.fail
      | some (m0, e0) =>
        match expPart with
        | none => FloatParse.finite (if neg then -(m0 : Int) else (m0 : Int)) e0
        | some es =>
          match parseExpPart es with
          | none => FloatParse.fail
          | some ev => FloatParse.finite (if neg then -(m0 : Int) else (m0 : Int)) (e0 + ev)

/-- A decimal `m × 10^e` rounds (to nearest, ties to even) to IEEE-754
infinity iff its magnitude is at least the overflow midpoint `thr`. -/
def decimalOverflows (thr : Nat) (m e : Int) : Bool :=
  if 0 ≤ e then decide (thr ≤ m.natAbs * 10 ^ e.toNat)
  else decide (thr * 10 ^ (-e).toNat ≤ m.natAbs)

/-- IEEE-754 binary32 overflow midpoint: `(2 − 2⁻²⁴)·2¹²⁷`. -/
def f32InfThreshold : Nat := 2 ^ 128 - 2 ^ 103

/-- IEEE-754 binary64 overflow midpoint: `(2 − 2⁻⁵³)·2¹⁰²³`. -/
def f64InfThreshold : Nat := 2 ^ 1024 - 2 ^ 970

/-- `value.parse::<fN>()` succeeds with a finite (non-NaN, non-infinite)
result — the condition the Rust code checks before returning `Real` /
`DoublePrecision` (decimals that underflow round to `0.0`, which is
finite, so only overflow and the special literals are rejected). -/
def parsesAsFiniteFloat (thr : Nat) (s : List Char) : Bool :=
  match parseFloatVal s with
  | FloatParse.finite m e => !decimalOverflows thr m e
  | _ => false

end Parse

namespace Parse

/-! ### `chrono` format parsing (`is_timestamp` / `is_date`)

`chrono::NaiveDateTime::parse_from_str` / `NaiveDate::parse_from_str` are
modelled by a small interpreter over format items.  Following `chrono`'s
parser: a numeric item skips leading whitespace and consumes one to
`width` digits greedily (the year also accepts an explicit sign followed
by arbitrarily many digits); a whitespace item skips any amount of
whitespace; a literal must match exactly; `%.f` is an optional dot
followed by one or more digits; the whole input must be consumed; the
parsed fields must then form a valid proleptic-Gregorian date (and time),
with `chrono`'s year range `-262144 ≤ y ≤ 262143`. -/

/-- One item of a `chrono` format string, restricted to the items used by
the formats in `src/types.rs`. -/
inductive FItem where
  | lit (c : Char)
  | space
  | year
  | month
  | day
  | hour
  | minute
  | second
  | frac
  deriving DecidableEq, Repr

/-- Parsed date-time fields (chrono's `Parsed`, restricted). -/
structure DTParts where
  y : Int
  mo : Nat
  d : Nat
  h : Nat
  mi : Nat
  sec : Nat
  deriving DecidableEq, Repr

/-- Skip leading whitespace (`str::trim_start`). -/
def dropSpaces (s : List Char) : List Char :=
  s.dropWhile Char.isWhitespace

/-- Take up to `max` leading ASCII digits. -/
def takeDigitsUpTo (max : Nat) (s : List Char) : List Char × List Char :=
  match max, s with
  | 0, s => ([], s)
  | _ + 1, [] => ([], [])
  | m + 1, c :: rest =>
    if c.isDigit then
      match takeDigitsUpTo m rest with
      | (ds, r) => (c :: ds, r)
    else ([], c :: rest)

/-- Parse an unsigned numeric field of maximum width `maxW` (chrono
`scan::number` after `trim_left`). -/
def parseNumField (maxW : Nat) (s : List Char) : Option (Nat × List Char) :=
  let s := dropSpaces s
  match takeDigitsUpTo maxW s with
  | (ds, r) => if ds.isEmpty then none else some (digitsToNat ds, r)

/-- Parse a year field: an explicit sign admits arbitrarily many digits;
otherwise at most four digits are consumed (chrono `%Y`). -/
def parseYearField (s : List Char) : Option (Int × List Char) :=
  let s := dropSpaces s
  match s with
  | '-' :: rest =>
    match parseNumField rest.length rest with
    | some (v, r) => some (-(v : Int), r)
    | none => none
  | '+' :: rest =>
    match parseNumField rest.length rest with
    | some (v, r) => some ((v : Int), r)
    | none => none
  | _ =>
    match parseNumField 4 s with
    | some (v, r) => some ((v : Int), r)
    | none => none

/-- Parse `%.f`: nothing, or a dot followed by one or more digits
(chrono `Fixed::Nanosecond`). -/
def parseFracField (s : List Char) : Option (List Char) :=
  match s with
  | '.' :: rest =>
    let ds := rest.takeWhile Char.isDigit
    if ds.isEmpty then none else some (rest.dropWhile Char.isDigit)
  | _ => some s

/-- Run a format-item list over the input, requiring full consumption. -/
def runItems (items : List FItem) (s : List Char) (p : DTParts) : Option DTParts :=
  match items with
  | [] => if s.isEmpty then some p else none
  | FItem.lit c :: rest =>
    match s with
    | c' :: s' => if c' = c then runItems rest s' p else none
    | [] => none
  | FItem.space :: rest => runItems rest (dropSpaces s) p
  | FItem.year :: rest =>
    match parseYearField s with
    | some (v, s') => runItems rest s' { p with y := v }
    | none => none
  | FItem.month :: rest =>
    match parseNumField 2 s with
    | some (v, s') => runItems rest s' { p with mo := v }
    | none => none
  | FItem.day :: rest =>
    match parseNumField 2 s with
    | some (v, s') => runItems rest s' { p with d := v }
    | none => none
  | FItem.hour :: rest =>
    match parseNumField 2 s with
    | some (v, s') => runItems rest s' { p with h := v }
    | none => none
  | FItem.minute :: rest =>
    match parseNumField 2 s with
    | some (v, s') => runItems rest s' { p with mi := v }
    | none => none
  | FItem.second :: rest =>
    match parseNumField 2 s with
    | some (v, s') => runItems rest s' { p with sec := v }
    | none => none
  | FItem.frac :: rest =>
    match parseFracField s with
    | some s' => runItems rest s' p
    | none => none

/-- Proleptic-Gregorian leap year. -/
def isLeapYear (y : Int) : Bool :=
  (y % 4 == 0 && y % 100 != 0) || y % 400 == 0

/-- Days in a month of a given year. -/
def daysInMonth (y : Int) (mo : Nat) : Nat :=
  match mo with
  | 1 => 31
  | 2 => if isLeapYear y then 29 else 28
  | 3 => 31
  | 4 => 30
  | 5 => 31
  | 6 => 30
  | 7 => 31
  | 8 => 31
  | 9 => 30
  | 10 => 31
  | 11 => 30
  | 12 => 31
  | _ => 0

/-- `chrono::NaiveDate::from_ymd_opt` validity. -/
def dateValid (y : Int) (mo d : Nat) : Bool :=
  decide (-262144 ≤ y) && decide (y ≤ 262143) &&
    decide (1 ≤ mo) && decide (mo ≤ 12) &&
    decide (1 ≤ d) && decide (d ≤ daysInMonth y mo)

/-- `chrono::NaiveTime::from_hms_opt` validity. -/
def timeValid (h mi s : Nat) : Bool :=
  decide (h ≤ 23) && decide (mi ≤ 59) && decide (s ≤ 59)

/-- `%Y-%m-%d`. -/
def ymdDash : List FItem :=
  [FItem.year, FItem.lit '-', FItem.month, FItem.lit '-', FItem.day]

/-- `%H:%M:%S`. -/
def hmsItems : List FItem :=
  [FItem.hour, FItem.lit ':', FItem.minute, FItem.lit ':', FItem.second]

/-- The seven timestamp formats tried by `SqlType::is_timestamp`
(`src/types.rs` lines 88–103), in source order. -/
def tsFormats : List (List FItem) :=
  [ ymdDash ++ [FItem.space] ++ hmsItems,
    ymdDash ++ [FItem.space] ++ hmsItems ++ [FItem.frac],
    ymdDash ++ [FItem.lit 'T'] ++ hmsItems,
    ymdDash ++ [FItem.lit 'T'] ++ hmsItems ++ [FItem.frac],
    [FItem.year, FItem.lit '/', FItem.month, FItem.lit '/', FItem.day,
      FItem.space] ++ hmsItems,
    [FItem.day, FItem.lit '-', FItem.month, FItem.lit '-', FItem.year,
      FItem.space] ++ hmsItems,
    [FItem.month, FItem.lit '/', FItem.day, FItem.lit '/', FItem.year,
      FItem.space] ++ hmsItems ]

/-- The five date formats tried by `SqlType::is_date` (`src/types.rs`
lines 106–119), in source order. -/
def dateFormats : List (List FItem) :=
  [ ymdDash,
    [FItem.year, FItem.lit '/', FItem.month, FItem.lit '/', FItem.day],
    [FItem.day, FItem.lit '-', FItem.month, FItem.lit '-', FItem.year],
    [FItem.month, FItem.lit '/', FItem.day, FItem.lit '/', FItem.year],
    [FItem.day, FItem.lit '/', FItem.month, FItem.lit '/', FItem.year] ]

/-- Initial parsed fields (nothing set; every format below overwrites the
fields its validity check reads). -/
def initParts : DTParts := ⟨0, 1, 1, 0, 0, 0⟩

/-- `SqlType::is_timestamp`: some timestamp format parses the value into
a valid date and time. -/
def is_timestamp (v : List Char) : Bool :=
  tsFormats.any fun fmt =>
    match runItems fmt v initParts with
    | some p => dateValid p.y p.mo p.d && timeValid p.h p.mi p.sec
    | none => false

/-- `SqlType::is_date`: some date format parses the value into a valid
date. -/
def is_date (v : List Char) : Bool :=
  dateFormats.any fun fmt =>
    match runItems fmt v initParts with
    | some p => dateValid p.y p.mo p.d
    | none => false

end Parse

open Parse in
/-- `SqlType::infer_from_str` (`src/types.rs` lines 39–85): null-likes,
then `bool`, `i16`, `i32`, `i64`, finite `f32`, finite `f64`, timestamp
formats, date formats, in that order; otherwise `Text`. -/
def SqlType.infer_from_str (value : List Char) : SqlType :=
  if value.isEmpty || eqIgnoreAsciiCase value ("null".toList) ||
      eqIgnoreAsciiCase value ("\\N".toList) then
    SqlType.Null
  else if parseBoolOk value then SqlType.Boolean
  else if parseIntOk (-(2 ^ 15)) (2 ^ 15 - 1) value then SqlType.SmallInt
  else if parseIntOk (-(2 ^ 31)) (2 ^ 31 - 1) value then SqlType.Integer
  else if parseIntOk (-(2 ^ 63)) (2 ^ 63 - 1) value then SqlType.BigInt
  else if parsesAsFiniteFloat f32InfThreshold value then SqlType.Real
  else if parsesAsFiniteFloat f64InfThreshold value then SqlType.DoublePrecision
  else if is_timestamp value then SqlType.Timestamp
  else if is_date value then SqlType.Date
  else SqlType.Text

/-! Sanity checks of the embedding, mirroring the unit tests of
`src/types.rs` plus edge cases (float overflow, chrono leap years). -/

example : SqlType.infer_from_str ("".toList) = SqlType.Null := by decide
example : SqlType.infer_from_str ("null".toList) = SqlType.Null := by decide
example : SqlType.infer_from_str ("NULL".toList) = SqlType.Null := by decide
example : SqlType.infer_from_str ("\\N".toList) = SqlType.Null := by decide
example : SqlType.infer_from_str ("true".toList) = SqlType.Boolean := by decide
example : SqlType.infer_from_str ("false".toList) = SqlType.Boolean := by decide
example : SqlType.infer_from_str ("42".toList) = SqlType.SmallInt := by decide
example : SqlType.infer_from_str ("32767".toList) = SqlType.SmallInt := by decide
example : SqlType.infer_from_str ("32768".toList) = SqlType.Integer := by decide
example : SqlType.infer_from_str ("2147483648".toList) = SqlType.BigInt := by decide
example : SqlType.infer_from_str ("3.14".toList) = SqlType.Real := by decide
example : SqlType.infer_from_str ("3.14159265359".toList) = SqlType.Real := by decide
example : SqlType.infer_from_str ("2024-01-15".toList) = SqlType.Date := by decide
example : SqlType.infer_from_str ("2024/01/15".toList) = SqlType.Date := by decide
example : SqlType.infer_from_str ("2024-01-15 10:30:00".toList) = SqlType.Timestamp := by decide
example : SqlType.infer_from_str ("2024-01-15T10:30:00".toList) = SqlType.Timestamp := by decide
example : SqlType.infer_from_str ("hello world".toList) = SqlType.Text := by decide
example : SqlType.infer_from_str ("abc123".toList) = SqlType.Text := by decide
example : SqlType.infer_from_str ("True".toList) = SqlType.Text := by decide
example : SqlType.infer_from_str ("TRUE".toList) = SqlType.Text := by decide
example : SqlType.infer_from_str ("FALSE".toList) = SqlType.Text := by decide
set_option maxRecDepth 8000 in
example : SqlType.infer_from_str ("1e39".toList) = SqlType.DoublePrecision := by decide
example : SqlType.infer_from_str ("inf".toList) = SqlType.Text := by decide
example : SqlType.infer_from_str ("NaN".toList) = SqlType.Text := by decide
example : SqlType.infer_from_str ("2024-01-15 10:30:00.123".toList) = SqlType.Timestamp := by decide
example : SqlType.infer_from_str ("15-01-2024 10:30:00".toList) = SqlType.Timestamp := by decide
example : SqlType.infer_from_str ("01/15/2024 10:30:00".toList) = SqlType.Timestamp := by decide
example : SqlType.infer_from_str ("15/01/2024".toList) = SqlType.Date := by decide
example : SqlType.infer_from_str ("2024-02-30".toList) = SqlType.Text := by decide
example : SqlType.infer_from_str ("2024-02-29".toList) = SqlType.Date := by decide
example : SqlType.infer_from_str ("2023-02-29".toList) = SqlType.Text := by decide

/-! ## Schema inference (`src/schema.rs`) -/

/-- `ColumnSchema` from `src/schema.rs`. -/
structure ColumnSchema where
  name : List Char
  sql_type : SqlType
  nullable : Bool
  sample_count : Nat
  null_count : Nat
  deriving DecidableEq, Repr

namespace ColumnSchema

/-- `ColumnSchema::new`. -/
def new (name : List Char) : ColumnSchema :=
  { name := name
    sql_type := SqlType.Null
    nullable := true
    sample_count := 0
    null_count := 0 }

/-- `ColumnSchema::update` (lines 28–38): count the sample, count a null
when the inferred type is `Null`, and merge the inferred type in. -/
def update (c : ColumnSchema) (value : List Char) : ColumnSchema :=
  let inferred := SqlType.infer_from_str value
  { c with
    sample_count := c.sample_count + 1
    null_count := c.null_count + (if inferred = SqlType.Null then 1 else 0)
    sql_type := c.sql_type.merge inferred }

/-- `ColumnSchema::finalize` (lines 41–49): all-null columns default to
`Text`; the column is nullable iff any null was seen. -/
def finalize (c : ColumnSchema) : ColumnSchema :=
  { c with
    sql_type := if c.sql_type = SqlType.Null then SqlType.Text else c.sql_type
    nullable := decide (0 < c.null_count) }

/-- `ColumnSchema::confidence` (lines 52–68), with the `f64` arithmetic
modelled exactly over `ℚ` (`0.6 = 3/5`, `0.3 = 3/10`). -/
def confidence (c : ColumnSchema) : ℚ :=
  if c.sample_count = 0 then 0
  else
    let non_null_ratio : ℚ := 1 - (c.null_count : ℚ) / (c.sample_count : ℚ)
    let type_confidence : ℚ :=
      match c.sql_type with
      | SqlType.Text => 3 / 5
      | SqlType.Null => 3 / 10
      | _ => 1
    non_null_ratio * type_confidence

end ColumnSchema

/-- The violated table-name rule; the Rust code carries these as the
formatted message inside `LoaderError::InvalidTableName`, with the
offending name interpolated where shown. -/
inductive TableNameViolation where
  | emptyName
  | badFirstChar (name : List Char)
  | invalidChar (name : List Char)
  | sqlKeyword (name : List Char)
  deriving DecidableEq, Repr

/-- The fixed reserved-word list of `TableSchema::validate_table_name`. -/
def sqlKeywords : List (List Char) :=
  ["SELECT".toList, "INSERT".toList, "UPDATE".toList, "DELETE".toList,
   "DROP".toList, "CREATE".toList, "ALTER".toList, "EXEC".toList]

open Parse in
/-- `TableSchema::validate_table_name` (`src/schema.rs` lines 144–172).
Rust's Unicode `char::is_alphabetic` / `char::is_alphanumeric` are
modelled by their ASCII restrictions (`Char.isAlpha` / `Char.isAlphanum`);
every string the claims mention is ASCII. -/
def validate_table_name (name : List Char) : Except TableNameViolation Unit :=
  match name with
  | [] => Except.error TableNameViolation.emptyName
  | c :: cs =>
    -- must start with letter or underscore
    if ¬ c.isAlpha ∧ ¬ c = '_' then
      Except.error (TableNameViolation.badFirstChar (c :: cs))
    -- only alphanumeric and underscore allowed
    else if ¬ (c :: cs).all (fun x => x.isAlphanum || x == '_') then
      Except.error (TableNameViolation.invalidChar (c :: cs))
    -- reject SQL keywords
    else if sqlKeywords.any (fun k => eqIgnoreAsciiCase (c :: cs) k) then
      Except.error (TableNameViolation.sqlKeyword (c :: cs))
    else Except.ok ()

/-! Sanity checks mirroring the unit tests of `src/schema.rs`. -/

example : validate_table_name ("users".toList) = Except.ok () := rfl
example : validate_table_name ("_temp".toList) = Except.ok () := rfl
example : validate_table_name ("user_data".toList) = Except.ok () := rfl
example : validate_table_name [] = Except.error TableNameViolation.emptyName := rfl
example : validate_table_name ("123users".toList)
    = Except.error (TableNameViolation.badFirstChar ("123users".toList)) := rfl
example : validate_table_name ("user-data".toList)
    = Except.error (TableNameViolation.invalidChar ("user-data".toList)) := rfl
example : validate_table_name ("SELECT".toList)
    = Except.error (TableNameViolation.sqlKeyword ("SELECT".toList)) := rfl
example : validate_table_name ("select".toList)
    = Except.error (TableNameViolation.sqlKeyword ("select".toList)) := rfl

/-! ## Batch processing (`src/db/batch.rs`) -/

/-- A parsed row (Rust `Vec<String>`). -/
def Row : Type := List (List Char)

instance : DecidableEq Row := fun a b => instDecidableEqList a b

/-- `BatchConfig` from `src/db/batch.rs` (durations as abstract `Nat`
time units). -/
structure BatchConfig where
  batch_size : Nat
  max_retries : Nat
  initial_backoff : Nat
  max_backoff : Nat
  deriving DecidableEq, Repr

/-- Observable outcome of `BatchProcessor::process_batch`: the returned
value (`Ok(count)` or `LoaderError::BatchError { retries, message }`),
the number of `load_batch` attempts made, and the total backoff slept. -/
structure RunOutcome where
  result : Except (Nat × String) Nat
  attempts : Nat
  sleptTotal : Nat
  deriving Repr

/-- The retry loop of `BatchProcessor::process_batch` (`src/db/batch.rs`
lines 47–72).  The sink abstracts `loader.load_batch(&batch)`, indexed by
the attempt number (the batch itself is fixed for the whole loop);
`sleep backoff` is modelled by adding `backoff` to `sleptTotal`. -/
def process_batch_loop (sink : Nat → Except String Nat)
    (maxRetries maxBackoff : Nat) (retries backoff slept : Nat) : RunOutcome :=
  match sink retries with
  | Except.ok count => ⟨Except.ok count, retries + 1, slept⟩
  | Except.error e =>
    if h : maxRetries ≤ retries then
      ⟨Except.error (retries, e), retries + 1, slept⟩
    else
      process_batch_loop sink maxRetries maxBackoff (retries + 1)
        (min (backoff * 2) maxBackoff) (slept + backoff)
termination_by maxRetries - retries
decreasing_by omega

/-- `BatchProcessor::process_batch`: start with zero retries and the
configured initial backoff. -/
def process_batch (sink : Nat → Except String Nat) (cfg : BatchConfig) : RunOutcome :=
  process_batch_loop sink cfg.max_retries cfg.max_backoff 0 cfg.initial_backoff 0

/-- The body of `BatchIterator::next` (`src/db/batch.rs` lines 94–110):
pull up to `n` more items, accumulating rows in `acc`; a pulled error is
returned at once (dropping `acc`); at exhaustion or a full batch, an
empty `acc` means end-of-iteration.  Returns the yielded item and the
remaining state of the underlying iterator. -/
def collectBatch (n : Nat) (acc : List Row) (s : List (Except String Row)) :
    Option (Except String (List Row)) × List (Except String Row) :=
  match n, s with
  | 0, s => (if acc.isEmpty then none else some (Except.ok acc), s)
  | _ + 1, [] => (if acc.isEmpty then none else some (Except.ok acc), [])
  | n + 1, Except.ok row :: rest => collectBatch n (acc ++ [row]) rest
  | _ + 1, Except.error e :: rest => (some (Except.error e), rest)

/-- `BatchIterator::next`, with the underlying iterator modelled as the
list of its remaining items. -/
def batchNext (batchSize : Nat) (s : List (Except String Row)) :
    Option (Except String (List Row)) × List (Except String Row) :=
  collectBatch batchSize [] s

/-- Repeatedly pull `batchNext` until it yields `none`, with explicit
fuel (`s.length` steps suffice for a positive batch size, since every
yielded item consumes at least one element). -/
def driveBatches (batchSize : Nat) : Nat → List (Except String Row) → List (Except String (List Row))
  | 0, _ => []
  | fuel + 1, s =>
    match batchNext batchSize s with
    | (none, _) => []
    | (some b, s') => b :: driveBatches batchSize fuel s'

/-- All items yielded by a fresh `BatchIterator` over source `s`. -/
def batchList (batchSize : Nat) (s : List (Except String Row)) :
    List (Except String (List Row)) :=
  driveBatches batchSize s.length s

/-- Reference chunking of a row list into groups of `N` (the last group
possibly smaller), to compare `batchList` against. -/
def chunkRows (N : Nat) : List Row → List (List Row)
  | [] => []
  | x :: xs => (x :: xs.take (N - 1)) :: chunkRows N (xs.drop (N - 1))
termination_by l => l.length
decreasing_by simp [List.length_drop]; omega

/-! ## CSV encoding for COPY (`src/db/copy.rs`) -/

/-- The quoting condition of `CopyLoader::rows_to_csv` (line 81): the
field contains a comma, a double-quote, or a newline. -/
def needsQuoting (f : List Char) : Bool :=
  f.contains ',' || f.contains '"' || f.contains '\n'

/-- `value.replace('"', "\"\"")`: double every double-quote. -/
def escapeQuotes : List Char → List Char
  | [] => []
  | c :: cs => if c = '"' then '"' :: '"' :: escapeQuotes cs else c :: escapeQuotes cs

/-- Per-field encoding of `CopyLoader::rows_to_csv` (lines 75–88): empty
fields stay empty (NULL), fields containing comma/quote/newline are
quoted with internal quotes doubled, anything else is passed through. -/
def encodeField (f : List Char) : List Char :=
  if f.isEmpty then []
  else if needsQuoting f then '"' :: (escapeQuotes f ++ ['"'])
  else f

/-- One CSV row: encoded fields joined by commas, terminated by a
newline (lines 90–91). -/
def encodeRow (row : List (List Char)) : List Char :=
  List.intercalate [','] (row.map encodeField) ++ ['\n']

/-- `CopyLoader::rows_to_csv` (lines 62–95): encode each row after
checking its field count against the schema's column count
(`LoaderError::TypeConversionError` on mismatch). -/
def rows_to_csv (ncols : Nat) (rows : List (List (List Char))) : Except String (List Char) :=
  match rows with
  | [] => Except.ok []
  | r :: rs =>
    if r.length ≠ ncols then
      Except.error ("TypeConversionError: row/column count mismatch")
    else
      match rows_to_csv ncols rs with
      | Except.ok csv => Except.ok (encodeRow r ++ csv)
      | Except.error err => Except.error err

/-- Undo quote doubling (the inverse of `escapeQuotes`). -/
def unescapeQuotes : List Char → List Char
  | [] => []
  | [c] => [c]
  | c :: c' :: cs =>
    if c = '"' ∧ c' = '"' then '"' :: unescapeQuotes cs
    else c :: unescapeQuotes (c' :: cs)

/-- An RFC-4180 reader's view of a single encoded field token: a token
starting with a double-quote is unwrapped and its doubled quotes
collapsed; any other token denotes itself. -/
def csvDecodeField (t : List Char) : List Char :=
  match t with
  | [] => []
  | c :: rest => if c = '"' then unescapeQuotes rest.dropLast else c :: rest

/-! Sanity checks mirroring the unit tests of `src/db/copy.rs` and
`src/db/batch.rs` (batch size 2 over five rows). -/

example : encodeField ("a,b\"c".toList) = ("\"a,b\"\"c\"".toList) := rfl
example : csvDecodeField ("\"a,b\"\"c\"".toList) = ("a,b\"c".toList) := rfl
example : encodeField [] = [] := rfl
example : encodeRow ["1".toList, "Alice".toList] = ("1,Alice\n".toList) := rfl
example : batchList 2 [Except.ok ["1".toList], Except.ok ["2".toList], Except.ok ["3".toList],
    Except.ok ["4".toList], Except.ok ["5".toList]]
    = [Except.ok [["1".toList], ["2".toList]], Except.ok [["3".toList], ["4".toList]],
       Except.ok [["5".toList]]] := rfl

/-! ## Theorems for the remaining claims -/


/-- Helper for C8: one `update` with a null-inferred value on a
`Null`-typed column increments both counters and stays `Null`-typed. -/
theorem update_null_step (c : ColumnSchema) (v : List Char)
    (hv : SqlType.infer_from_str v = SqlType.Null)
    (h1 : c.sql_type = SqlType.Null) :
    (c.update v).sql_type = SqlType.Null ∧
    (c.update v).null_count = c.null_count + 1 ∧
    (c.update v).sample_count = c.sample_count + 1 := by
  refine ⟨?_, ?_, ?_⟩ <;> simp [ColumnSchema.update, hv, h1, SqlType.merge]

/-- Helper for C8: folding `update` over only null-inferred values keeps
the column `Null`-typed with `null_count = sample_count`. -/
theorem foldl_update_all_null (vs : List (List Char)) :
    ∀ c : ColumnSchema, (∀ v ∈ vs, SqlType.infer_from_str v = SqlType.Null) →
      c.sql_type = SqlType.Null → c.null_count = c.sample_count →
      (vs.foldl ColumnSchema.update c).sql_type = SqlType.Null ∧
      (vs.foldl ColumnSchema.update c).null_count
        = (vs.foldl ColumnSchema.update c).sample_count := by
  induction vs with
  | nil => intro c _ h1 h2; exact ⟨h1, h2⟩
  | cons v vs ih =>
    intro c hall h1 h2
    have hv : SqlType.infer_from_str v = SqlType.Null := hall v (by simp)
    have hstep := update_null_step c v hv h1
    rw [List.foldl_cons]
    exact ih (c.update v) (fun w hw => hall w (by simp [hw]))
      hstep.1 (by rw [hstep.2.1, hstep.2.2, h2])

/-- **C8.** `confidence` is `0` when `sample_count = 0`, and otherwise
`(1 − nullCount/sampleCount) × typeWeight` with weight `0.6` for `Text`,
`0.3` for `Null`, `1` otherwise; a finalized column whose sampled values
were all null is `Text`-typed and has confidence exactly `0`. -/
theorem confidence_formula_and_all_null :
    (∀ c : ColumnSchema, c.sample_count = 0 → c.confidence = 0) ∧
    (∀ c : ColumnSchema, c.sample_count ≠ 0 → c.sql_type = SqlType.Text →
       c.confidence
         = (1 - (c.null_count : ℚ) / (c.sample_count : ℚ)) * (3 / 5)) ∧
    (∀ c : ColumnSchema, c.sample_count ≠ 0 → c.sql_type = SqlType.Null →
       c.confidence
         = (1 - (c.null_count : ℚ) / (c.sample_count : ℚ)) * (3 / 10)) ∧
    (∀ c : ColumnSchema, c.sample_count ≠ 0 → c.sql_type ≠ SqlType.Text →
       c.sql_type ≠ SqlType.Null →
       c.confidence = 1 - (c.null_count : ℚ) / (c.sample_count : ℚ)) ∧
    (∀ (name : List Char) (vs : List (List Char)),
       (∀ v ∈ vs, SqlType.infer_from_str v = SqlType.Null) →
       ((vs.foldl ColumnSchema.update (ColumnSchema.new name)).finalize).sql_type
           = SqlType.Text ∧
       ((vs.foldl ColumnSchema.update (ColumnSchema.new name)).finalize).confidence
           = 0) := by
  refine ⟨?_, ?_, ?_, ?_, ?_⟩
  · intro c h; simp [ColumnSchema.confidence, h]
  · intro c h ht; simp [ColumnSchema.confidence, h, ht]
  · intro c h ht; simp [ColumnSchema.confidence, h, ht]
  · intro c h ht hn
    cases htype : c.sql_type <;>
      simp_all [ColumnSchema.confidence, h, htype]
  · intro name vs hall
    have hbase := foldl_update_all_null vs (ColumnSchema.new name) hall rfl rfl
    set f := vs.foldl ColumnSchema.update (ColumnSchema.new name) with hf
    constructor
    · simp [ColumnSchema.finalize, hbase.1]
    · by_cases hzero : f.sample_count = 0
      · simp [ColumnSchema.finalize, ColumnSchema.confidence, hzero]
      · have hratio : (f.null_count : ℚ) / (f.sample_count : ℚ) = 1 := by
          rw [hbase.2]
          exact div_self (by exact_mod_cast hzero)
        simp [ColumnSchema.finalize, ColumnSchema.confidence, hzero, hbase.1, hratio]

/-- First-character rule of `validate_table_name`: alphabetic or
underscore. -/
def validFirstChar (c : Char) : Bool := c.isAlpha || c == '_'

/-- Character rule of `validate_table_name`: every character alphanumeric
or underscore. -/
def validNameChars (name : List Char) : Bool :=
  name.all fun x => x.isAlphanum || x == '_'

/-- Reserved-word rule of `validate_table_name`: case-insensitively one
of the fixed keyword list. -/
def isReservedWord (name : List Char) : Bool :=
  sqlKeywords.any fun k => Parse.eqIgnoreAsciiCase name k

/-- Helper for C9: the source's if-chain, restated over the three named
rule predicates. -/
theorem validate_table_name_cases (c : Char) (cs : List Char) :
    validate_table_name (c :: cs) =
      (if validFirstChar c = false then
        Except.error (TableNameViolation.badFirstChar (c :: cs))
      else if validNameChars (c :: cs) = false then
        Except.error (TableNameViolation.invalidChar (c :: cs))
      else if isReservedWord (c :: cs) = true then
        Except.error (TableNameViolation.sqlKeyword (c :: cs))
      else Except.ok ()) := by
  by_cases hA : c.isAlpha = true <;>
    by_cases hU : c = '_' <;>
    by_cases hV : ((c :: cs).all fun x => x.isAlphanum || x == '_') = true <;>
    by_cases hK : (sqlKeywords.any fun k => Parse.eqIgnoreAsciiCase (c :: cs) k) = true <;>
    simp_all [validate_table_name, validFirstChar, validNameChars, isReservedWord] <;>
    (try (split_ifs <;> try rfl))
  all_goals
    obtain ⟨x, hx, hbad⟩ := ‹∃ x ∈ cs, x.isAlphanum = false ∧ ¬x = '_'›
    have hgood : x.isAlphanum = true ∨ x = '_' := by
      first
        | exact ‹∀ x ∈ cs, x.isAlphanum = true ∨ x = '_'› x hx
        | exact (‹c.isAlphanum = true ∧ ∀ x ∈ cs, x.isAlphanum = true ∨ x = '_'›).2 x hx
    rcases hgood with hg | hg
    · simp [hbad.1] at hg
    · exact absurd hg hbad.2

/-- **C9.** `validate_table_name` accepts exactly the non-empty names
that start with a letter or underscore, consist of alphanumerics and
underscores, and are not (case-insensitively) a reserved keyword; each
violation yields the error naming its rule; `"users"` and `"_temp"` are
accepted while `""`, `"123users"`, `"user-data"` and `"SELECT"` (any
case) are rejected. -/
theorem validate_table_name_spec :
    (∀ (c : Char) (cs : List Char),
       validate_table_name (c :: cs) = Except.ok () ↔
         (validFirstChar c = true ∧ validNameChars (c :: cs) = true ∧
          isReservedWord (c :: cs) = false)) ∧
    validate_table_name [] = Except.error TableNameViolation.emptyName ∧
    (∀ (c : Char) (cs : List Char), validFirstChar c = false →
       validate_table_name (c :: cs)
         = Except.error (TableNameViolation.badFirstChar (c :: cs))) ∧
    (∀ (c : Char) (cs : List Char), validFirstChar c = true →
       validNameChars (c :: cs) = false →
       validate_table_name (c :: cs)
         = Except.error (TableNameViolation.invalidChar (c :: cs))) ∧
    (∀ (c : Char) (cs : List Char), validFirstChar c = true →
       validNameChars (c :: cs) = true → isReservedWord (c :: cs) = true →
       validate_table_name (c :: cs)
         = Except.error (TableNameViolation.sqlKeyword (c :: cs))) ∧
    validate_table_name ("users".toList) = Except.ok () ∧
    validate_table_name ("_temp".toList) = Except.ok () ∧
    validate_table_name ("123users".toList)
      = Except.error (TableNameViolation.badFirstChar ("123users".toList)) ∧
    validate_table_name ("user-data".toList)
      = Except.error (TableNameViolation.invalidChar ("user-data".toList)) ∧
    validate_table_name ("SELECT".toList)
      = Except.error (TableNameViolation.sqlKeyword ("SELECT".toList)) ∧
    validate_table_name ("select".toList)
      = Except.error (TableNameViolation.sqlKeyword ("select".toList)) := by
  refine ⟨?_, rfl, ?_, ?_, ?_, rfl, rfl, rfl, rfl, rfl, rfl⟩
  · intro c cs
    rw [validate_table_name_cases]
    rcases Bool.eq_false_or_eq_true (validFirstChar c) with h1 | h1 <;>
      rcases Bool.eq_false_or_eq_true (validNameChars (c :: cs)) with h2 | h2 <;>
      rcases Bool.eq_false_or_eq_true (isReservedWord (c :: cs)) with h3 | h3 <;>
      simp [h1, h2, h3]
  · intro c cs h
    rw [validate_table_name_cases, if_pos h]
  · intro c cs h1 h2
    rw [validate_table_name_cases]
    simp [h1, h2]
  · intro c cs h1 h2 h3
    rw [validate_table_name_cases]
    simp [h1, h2, h3]

/-- Helper for C6: prepending a non-quote character commutes with
unescaping. -/
theorem unescapeQuotes_cons_ne (c : Char) (hc : c ≠ '"') (l : List Char) :
    unescapeQuotes (c :: l) = c :: unescapeQuotes l := by
  cases l with
  | nil => rfl
  | cons d ds => simp [unescapeQuotes, hc]

/-- Helper for C6: unescaping undoes quote doubling. -/
theorem unescapeQuotes_escapeQuotes (f : List Char) :
    unescapeQuotes (escapeQuotes f) = f := by
  induction f with
  | nil => rfl
  | cons c cs ih =>
    by_cases hc : c = '"'
    · subst hc
      simp [escapeQuotes, unescapeQuotes, ih]
    · rw [escapeQuotes]
      rw [if_neg hc, unescapeQuotes_cons_ne c hc, ih]

/-- Helper for C6: a field free of comma/quote/newline does not start
with a double quote (or any of the three special characters). -/
theorem not_needsQuoting_no_quote {f : List Char} (h : needsQuoting f = false) :
    '"' ∉ f := by
  intro hmem
  simp [needsQuoting, List.contains, Bool.or_eq_false_iff] at h
  exact h.1.2 hmem


/-- **C6.** A field is quoted (with internal quotes doubled) iff it
contains a comma, double-quote or newline; an empty field encodes empty;
rows whose field count matches the schema encode as comma-joined fields
with one newline per row; `a,b"c` encodes to `"a,b""c"`; and CSV
decoding of any encoded field gives back the original field. -/
theorem csv_encoding_spec :
    (∀ f : List Char,
       (encodeField f = '"' :: (escapeQuotes f ++ ['"'])) ↔ needsQuoting f = true) ∧
    encodeField [] = [] ∧
    (∀ (ncols : Nat) (rows : List (List (List Char))),
       (∀ r ∈ rows, r.length = ncols) →
       rows_to_csv ncols rows = Except.ok ((rows.map encodeRow).flatten)) ∧
    encodeField ("a,b\"c".toList) = ("\"a,b\"\"c\"".toList) ∧
    (∀ f : List Char, csvDecodeField (encodeField f) = f) := by
  refine ⟨?_, rfl, ?_, rfl, ?_⟩
  · intro f
    constructor
    · intro heq
      by_cases hq : needsQuoting f = true
      · exact hq
      · rcases f with _ | ⟨c, cs⟩
        · simp [encodeField] at heq
        · rw [encodeField, if_neg (by simp),
            if_neg (by simp [Bool.not_eq_true] at hq ⊢; exact hq)] at heq
          have : '"' ∈ c :: cs := by rw [heq]; simp
          exact absurd this (not_needsQuoting_no_quote (Bool.not_eq_true _ ▸ hq))
    · intro hq
      have hne : ¬ f.isEmpty = true := by
        rcases f with _ | ⟨c, cs⟩
        · simp [needsQuoting, List.contains] at hq
        · simp
      rw [encodeField, if_neg hne, if_pos hq]
  · intro ncols rows h
    induction rows with
    | nil => rfl
    | cons r rs ih =>
      rw [rows_to_csv, if_neg (by simp [h r (by simp)]),
        ih (fun x hx => h x (by simp [hx]))]
      simp
  · intro f
    by_cases hq : needsQuoting f = true
    · have hne : ¬ f.isEmpty = true := by
        rcases f with _ | ⟨c, cs⟩
        · simp [needsQuoting, List.contains] at hq
        · simp
      rw [encodeField, if_neg hne, if_pos hq, csvDecodeField]
      simp only [List.dropLast_concat, if_pos rfl]
      exact unescapeQuotes_escapeQuotes f
    · rcases f with _ | ⟨c, cs⟩
      · rfl
      · have hc : c ≠ '"' := by
          intro hcq
          exact absurd (by simp [hcq] : '"' ∈ c :: cs)
            (not_needsQuoting_no_quote (Bool.not_eq_true _ ▸ hq))
        rw [encodeField, if_neg (by simp),
          if_neg hq, csvDecodeField, if_neg hc]

/-- **C10.** Boolean recognition is case-sensitive — exactly `"true"` and
`"false"` infer as `Boolean`, while `"True"`, `"TRUE"`, `"FALSE"` infer
as `Text` — whereas the null forms `"null"` and `"\N"` are matched
case-insensitively. -/
theorem boolean_case_sensitive_null_insensitive :
    SqlType.infer_from_str ("true".toList) = SqlType.Boolean ∧
    SqlType.infer_from_str ("false".toList) = SqlType.Boolean ∧
    (∀ v : List Char, SqlType.infer_from_str v = SqlType.Boolean →
       v = "true".toList ∨ v = "false".toList) ∧
    SqlType.infer_from_str ("True".toList) = SqlType.Text ∧
    SqlType.infer_from_str ("TRUE".toList) = SqlType.Text ∧
    SqlType.infer_from_str ("FALSE".toList) = SqlType.Text ∧
    (∀ v : List Char, Parse.eqIgnoreAsciiCase v ("null".toList) = true →
       SqlType.infer_from_str v = SqlType.Null) ∧
    (∀ v : List Char, Parse.eqIgnoreAsciiCase v ("\\N".toList) = true →
       SqlType.infer_from_str v = SqlType.Null) := by
  refine ⟨by decide, by decide, ?_, by decide, by decide, by decide, ?_, ?_⟩
  · intro v h
    rw [SqlType.infer_from_str] at h
    split_ifs at h <;> try simp_all [Parse.parseBoolOk]
  · intro v h
    simp [SqlType.infer_from_str,
      show Parse.eqIgnoreAsciiCase v (['n', 'u', 'l', 'l']) = true from h]
  · intro v h
    simp [SqlType.infer_from_str,
      show Parse.eqIgnoreAsciiCase v (['\\', 'N']) = true from h]

open Parse in
/-- The terminal parse categories of `infer_from_str` in their strict
source order, with the tag of every category whose parser succeeds on the
value (the claim's "terminal parse categories"). -/
def matchingParseCategories (v : List Char) : List SqlType :=
  (if parseBoolOk v then [SqlType.Boolean] else []) ++
  (if parseIntOk (-(2 ^ 15)) (2 ^ 15 - 1) v then [SqlType.SmallInt] else []) ++
  (if parseIntOk (-(2 ^ 31)) (2 ^ 31 - 1) v then [SqlType.Integer] else []) ++
  (if parseIntOk (-(2 ^ 63)) (2 ^ 63 - 1) v then [SqlType.BigInt] else []) ++
  (if parsesAsFiniteFloat f32InfThreshold v then [SqlType.Real] else []) ++
  (if parsesAsFiniteFloat f64InfThreshold v then [SqlType.DoublePrecision] else []) ++
  (if is_timestamp v then [SqlType.Timestamp] else []) ++
  (if is_date v then [SqlType.Date] else [])

set_option maxRecDepth 8000 in
/-- **C7, counterexample.** The value `"42"` is accepted by five terminal
parse categories at once (16/32/64-bit integer and both float parses), so
it is false that at most one terminal parse category succeeds. -/
theorem parse_categories_not_exclusive_at_42 :
    matchingParseCategories ("42".toList)
      = [SqlType.SmallInt, SqlType.Integer, SqlType.BigInt,
         SqlType.Real, SqlType.DoublePrecision] ∧
    ¬ (matchingParseCategories ("42".toList)).length ≤ 1 := by
  constructor
  · decide
  · decide

/-- **C7, amended.** The terminal parse categories are not mutually
exclusive, but `infer_from_str` returns the tag of the FIRST successful
parse in the strict source order (and `Text` when none succeeds), so
every non-null value still gets exactly one tag. -/
theorem infer_returns_first_matching_category :
    ∀ v : List Char,
      (v.isEmpty || Parse.eqIgnoreAsciiCase v ("null".toList) ||
        Parse.eqIgnoreAsciiCase v ("\\N".toList)) = false →
      SqlType.infer_from_str v = ((matchingParseCategories v).head?).getD SqlType.Text := by
  intro v h
  rw [SqlType.infer_from_str,
    if_neg (by simp [Bool.or_eq_false_iff, List.isEmpty_iff] at h; simp; tauto)]
  rw [matchingParseCategories]
  split_ifs <;> rfl

set_option maxRecDepth 8000 in
/-- Witness for the amended C7 at the concrete value `"42"`: the first
successful category is the 16-bit integer parse, and `infer_from_str`
returns exactly its tag. -/
theorem infer_returns_first_matching_category_witness :
    SqlType.infer_from_str ("42".toList)
      = (((matchingParseCategories ("42".toList)).head?).getD SqlType.Text) ∧
    SqlType.infer_from_str ("42".toList) = SqlType.SmallInt :=
  ⟨infer_returns_first_matching_category ("42".toList) (by decide), by decide⟩

/-- Helper for C4: pulling into any partial batch, the first error is
returned at once, the partial rows are dropped, and the underlying
iterator is left just past the error. -/
theorem collectBatch_first_error (e : String) (rest : List (Except String Row)) :
    ∀ (oks : List Row) (n : Nat) (acc : List Row), oks.length < n →
      collectBatch n acc ((oks.map Except.ok) ++ Except.error e :: rest)
        = (some (Except.error e), rest) := by
  intro oks
  induction oks with
  | nil =>
    intro n acc h
    cases n with
    | zero => omega
    | succ n => rfl
  | cons r rs ih =>
    intro n acc h
    cases n with
    | zero => omega
    | succ n =>
      rw [List.map_cons, List.cons_append, collectBatch]
      exact ih n (acc ++ [r]) (by simp at h; omega)

/-- **C4, amended.** When the batch iterator meets the first row-level
failure while collecting a batch (fewer than `batchSize` rows gathered),
it yields that failure immediately and discards the partial rows, and a
pull on an exhausted source yields end-of-sequence; however the iterator
does NOT stop: its state continues just past the failed element, so a
later pull can yield further batches. -/
theorem batch_iterator_error_propagation :
    (∀ (oks : List Row) (e : String) (rest : List (Except String Row)) (N : Nat),
       oks.length < N →
       batchNext N ((oks.map Except.ok) ++ Except.error e :: rest)
         = (some (Except.error e), rest)) ∧
    (∀ N : Nat, batchNext N ([] : List (Except String Row)) = (none, [])) := by
  constructor
  · intro oks e rest N h
    exact collectBatch_first_error e rest oks N [] h
  · intro N
    cases N with
    | zero => rfl
    | succ N => rfl

/-- Witness for the amended C4 at a concrete source: batch size 2 over
`[Ok r1, Err "bad", Ok r2]` yields the error with state `[Ok r2]`, and a
pull on the empty source yields `none`. -/
theorem batch_iterator_error_propagation_witness :
    batchNext 2 [Except.ok (["1".toList] : Row), Except.error ("bad"),
        Except.ok (["2".toList] : Row)]
      = (some (Except.error ("bad")), [Except.ok (["2".toList] : Row)]) ∧
    batchNext 2 ([] : List (Except String Row)) = (none, []) :=
    ⟨batch_iterator_error_propagation.1 [["1".toList]] ("bad")
      [Except.ok ["2".toList]] 2 (by decide),
   batch_iterator_error_propagation.2 2⟩

/-- **C4, counterexample.** Batch production does not stop after a
failure: with batch size 2 over `[Ok r1, Err "bad", Ok r2]`, the first
pull yields the failure, but the SECOND pull yields the batch `[r2]` —
not end-of-sequence — refuting "subsequent pulls yield no further
batches". -/
theorem batch_iterator_continues_after_error :
    (batchNext 2 [Except.ok (["1".toList] : Row), Except.error ("bad"),
        Except.ok (["2".toList] : Row)]).1 = some (Except.error ("bad")) ∧
    (batchNext 2 (batchNext 2 [Except.ok (["1".toList] : Row), Except.error ("bad"),
        Except.ok (["2".toList] : Row)]).2).1
      = some (Except.ok [(["2".toList] : Row)]) := by
  exact ⟨rfl, rfl⟩

/-- Helper for C5: on an all-`Ok` source, one pull takes the first `n`
rows (after the accumulator) and leaves the rest. -/
theorem collectBatch_all_ok :
    ∀ (n : Nat) (acc : List Row) (rows : List Row),
      collectBatch n acc (rows.map Except.ok)
        = (if (acc ++ rows.take n).isEmpty then none
           else some (Except.ok (acc ++ rows.take n)),
           (rows.drop n).map Except.ok) := by
  intro n
  induction n with
  | zero => intro acc rows; simp [collectBatch]
  | succ n ih =>
    intro acc rows
    cases rows with
    | nil => simp [collectBatch]
    | cons r rs =>
      rw [List.map_cons, collectBatch, ih (acc ++ [r]) rs]
      simp [List.take_succ_cons, List.drop_succ_cons]

/-- Helper for C5: `batchNext` on an all-`Ok` source. -/
theorem batchNext_all_ok (N : Nat) (rows : List Row) :
    batchNext N (rows.map Except.ok)
      = (if (rows.take N).isEmpty then none
         else some (Except.ok (rows.take N)), (rows.drop N).map Except.ok) := by
  rw [batchNext, collectBatch_all_ok N [] rows]
  simp

/-- Helper for C5: `chunkRows` yields nothing only for the empty list. -/
theorem chunkRows_eq_nil_iff (N : Nat) (l : List Row) :
    chunkRows N l = [] ↔ l = [] := by
  cases l <;> simp [chunkRows]

/-- Helper for C5: concatenating the chunks restores the original list
(no drops, duplicates or reordering). -/
theorem chunkRows_flatten (N : Nat) (l : List Row) :
    (chunkRows N l).flatten = l := by
  cases l with
  | nil => simp [chunkRows]
  | cons x xs =>
    rw [chunkRows, List.flatten_cons, chunkRows_flatten N (xs.drop (N - 1))]
    rw [List.cons_append, List.take_append_drop]
termination_by l.length
decreasing_by simp [List.length_drop]; omega

/-- Helper for C5: the number of chunks is `⌈|l| / N⌉`. -/
theorem chunkRows_length (N : Nat) (hN : 0 < N) (l : List Row) :
    (chunkRows N l).length = (l.length + N - 1) / N := by
  cases l with
  | nil =>
    simp only [chunkRows, List.length_nil, List.length, Nat.zero_add]
    exact (Nat.div_eq_of_lt (by omega)).symm
  | cons x xs =>
    rw [chunkRows, List.length_cons, chunkRows_length N hN (xs.drop (N - 1))]
    simp only [List.length_drop, List.length_cons]
    rw [show xs.length + 1 + N - 1 = xs.length + N from by omega,
      Nat.add_div_right _ hN]
    by_cases hL : xs.length ≤ N - 1
    · rw [Nat.sub_eq_zero_of_le hL,
        show 0 + N - 1 = N - 1 from by omega,
        Nat.div_eq_of_lt (by omega), Nat.div_eq_of_lt (by omega)]
    · rw [show xs.length - (N - 1) + N - 1 = xs.length from by omega]
termination_by l.length
decreasing_by simp [List.length_drop]; omega

/-- Helper for C5: every chunk except possibly the last has exactly `N`
rows. -/
theorem chunkRows_dropLast_length (N : Nat) (hN : 0 < N) (l : List Row) :
    ∀ c ∈ (chunkRows N l).dropLast, c.length = N := by
  cases l with
  | nil => simp [chunkRows]
  | cons x xs =>
    rw [chunkRows]
    cases hrec : chunkRows N (xs.drop (N - 1)) with
    | nil => simp
    | cons y ys =>
      intro c hc
      rw [List.dropLast_cons₂] at hc
      rcases List.mem_cons.mp hc with hc | hc
      · have hne : xs.drop (N - 1) ≠ [] := by
          intro hnil
          rw [hnil] at hrec
          exact absurd hrec.symm (by simp [chunkRows])
        have hlen : N - 1 < xs.length := by
          by_contra hcon
          exact hne (List.drop_eq_nil_of_le (by omega))
        subst hc
        simp [List.length_take]
        omega
      · have := chunkRows_dropLast_length N hN (xs.drop (N - 1))
        rw [hrec] at this
        exact this c hc
termination_by l.length
decreasing_by simp [List.length_drop]; omega

/-- Helper for C5: the last chunk has `|l| mod N` rows (`N` when the
length divides evenly). -/
theorem chunkRows_getLast_length (N : Nat) (hN : 0 < N) :
    ∀ (n : Nat) (l : List Row), l.length ≤ n → l ≠ [] →
      ∃ c, (chunkRows N l).getLast? = some c ∧
        c.length = (if l.length % N = 0 then N else l.length % N) := by
  intro n
  induction n with
  | zero =>
    intro l h hl
    exact absurd (List.length_eq_zero.mp (by omega)) hl
  | succ n ih =>
    intro l h hl
    cases l with
    | nil => exact absurd rfl hl
    | cons x xs =>
      rw [chunkRows]
      by_cases hd : xs.drop (N - 1) = []
      · rw [(chunkRows_eq_nil_iff N _).mpr hd]
        have hxs : xs.length ≤ N - 1 := by
          by_contra hcon
          exact absurd hd (by simp [List.drop_eq_nil_iff]; omega)
        have hlen : (x :: xs.take (N - 1)).length = xs.length + 1 := by
          simp [List.length_take]
          omega
        refine ⟨x :: xs.take (N - 1), by simp, ?_⟩
        by_cases heq : xs.length + 1 = N
        · rw [hlen, List.length_cons, heq]
          simp [Nat.mod_self]
        · have hlt : xs.length + 1 < N := by omega
          rw [hlen, List.length_cons, Nat.mod_eq_of_lt hlt, if_neg (by omega)]
      · have hge : N - 1 < xs.length := by
          by_contra hcon
          exact hd (List.drop_eq_nil_of_le (by omega))
        obtain ⟨c, hc1, hc2⟩ := ih (xs.drop (N - 1))
          (by simp [List.length_drop] at h ⊢; omega) hd
        refine ⟨c, ?_, ?_⟩
        · cases htail : chunkRows N (xs.drop (N - 1)) with
          | nil => exact absurd ((chunkRows_eq_nil_iff N _).mp htail) hd
          | cons y ys =>
            rw [List.getLast?_cons_cons]
            rw [htail] at hc1
            exact hc1
        · rw [hc2]
          simp only [List.length_drop, List.length_cons]
          have key : xs.length + 1 = (xs.length - (N - 1)) + N := by omega
          have hmod : (xs.length - (N - 1)) % N = (xs.length + 1) % N := by
            rw [key, Nat.add_mod_right]
          rw [hmod]

/-- Helper: a pull on an exhausted source yields end-of-iteration. -/
theorem batchNext_nil (N : Nat) : batchNext N ([] : List (Except String Row)) = (none, []) := by
  cases N <;> rfl

/-- Helper for C5: driving the iterator over an all-`Ok` source of at
most `fuel` rows yields exactly the chunks of the rows. -/
theorem driveBatches_all_ok (N : Nat) (hN : 0 < N) :
    ∀ (fuel : Nat) (rows : List Row), rows.length ≤ fuel →
      driveBatches N fuel (rows.map Except.ok) = (chunkRows N rows).map Except.ok := by
  intro fuel
  induction fuel with
  | zero =>
    intro rows h
    have hrows : rows = [] := List.length_eq_zero.mp (by omega)
    subst hrows
    simp [driveBatches, chunkRows]
  | succ fuel ih =>
    intro rows h
    cases rows with
    | nil => simp [driveBatches, List.map_nil, batchNext_nil, chunkRows]
    | cons r rs =>
      rw [driveBatches, batchNext_all_ok]
      have htake : ((r :: rs).take N).isEmpty = false := by
        cases N with
        | zero => omega
        | succ n => simp [List.take_succ_cons]
      rw [htake]
      simp only [Bool.false_eq_true, if_false]
      rw [ih ((r :: rs).drop N) (by simp [List.length_drop]; simp at h; omega)]
      rw [chunkRows]
      cases N with
      | zero => omega
      | succ n =>
        simp [List.take_succ_cons, List.drop_succ_cons]

/-- **C5.** Over `M` successfully parsed rows with positive batch size
`N`, the iterator yields exactly `⌈M/N⌉` batches, matching the reference
chunking: all but the last have exactly `N` rows, the last has
`M mod N` (or `N` when `N` divides `M`), and concatenation restores the
input exactly. -/
theorem batcher_partitions_rows :
    ∀ (rows : List Row) (N : Nat), 0 < N →
      batchList N (rows.map Except.ok) = (chunkRows N rows).map Except.ok ∧
      (batchList N (rows.map Except.ok)).length = (rows.length + N - 1) / N ∧
      (∀ c ∈ (chunkRows N rows).dropLast, c.length = N) ∧
      (rows ≠ [] → ∃ c, (chunkRows N rows).getLast? = some c ∧
        c.length = (if rows.length % N = 0 then N else rows.length % N)) ∧
      (chunkRows N rows).flatten = rows := by
  intro rows N hN
  have hmain : batchList N (rows.map Except.ok) = (chunkRows N rows).map Except.ok := by
    rw [batchList, List.length_map]
    exact driveBatches_all_ok N hN rows.length rows le_rfl
  refine ⟨hmain, ?_, chunkRows_dropLast_length N hN rows,
    fun hne => chunkRows_getLast_length N hN rows.length rows le_rfl hne,
    chunkRows_flatten N rows⟩
  rw [hmain, List.length_map, chunkRows_length N hN rows]

/-- Witness for C5 at five concrete rows and batch size 2: the yielded
batches are `[r1,r2] [r3,r4] [r5]` and they concatenate to the input. -/
theorem batcher_partitions_rows_witness :
    (chunkRows 2 [["1".toList], ["2".toList], ["3".toList],
        ["4".toList], ["5".toList]]).flatten
      = [(["1".toList] : Row), ["2".toList], ["3".toList],
         ["4".toList], ["5".toList]] :=
  (batcher_partitions_rows
    [["1".toList], ["2".toList], ["3".toList], ["4".toList], ["5".toList]]
    2 (by decide)).2.2.2.2

/-- Helper for C3: while the sink keeps failing, the loop walks `retries`
up to `max_retries` and then returns the `BatchError` with the final
retry count and that attempt's message. -/
theorem process_batch_loop_always_fails (msgs : Nat → String) (maxRetries maxBackoff : Nat) :
    ∀ (k retries backoff slept : Nat), maxRetries - retries = k → retries ≤ maxRetries →
      (process_batch_loop (fun i => Except.error (msgs i)) maxRetries maxBackoff
          retries backoff slept).result = Except.error (maxRetries, msgs maxRetries) ∧
      (process_batch_loop (fun i => Except.error (msgs i)) maxRetries maxBackoff
          retries backoff slept).attempts = maxRetries + 1 := by
  intro k
  induction k with
  | zero =>
    intro retries backoff slept hk hle
    have heq : retries = maxRetries := by omega
    subst heq
    rw [process_batch_loop]
    simp
  | succ k ih =>
    intro retries backoff slept hk hle
    rw [process_batch_loop]
    have hlt : ¬ maxRetries ≤ retries := by omega
    simp only [hlt, dite_false, dif_neg, not_false_iff]
    exact ih (retries + 1) (min (backoff * 2) maxBackoff) (slept + backoff)
      (by omega) (by omega)

/-- A sink that fails on its first two attempts and then succeeds with
`count` accepted rows. -/
def failsTwiceThenOk (e1 e2 : String) (count : Nat) : Nat → Except String Nat :=
  fun i => if i = 0 then Except.error e1
    else if i = 1 then Except.error e2 else Except.ok count

/-- **C3.** With `max_retries = R`, an always-failing sink makes exactly
`R + 1` attempts and ends in `BatchError` carrying `retries = R` and the
last attempt's message (3 attempts for `R = 2`); with `R = 2` and a sink
failing exactly twice, the loop succeeds after 3 attempts having slept
`b + min(2b, m)` in total — `b + 2b` whenever the doubled backoff does
not exceed the cap `m`. -/
theorem retry_exhaustion_and_backoff :
    (∀ (msgs : Nat → String) (sz R b m : Nat),
       (process_batch (fun i => Except.error (msgs i)) ⟨sz, R, b, m⟩).result
           = Except.error (R, msgs R) ∧
       (process_batch (fun i => Except.error (msgs i)) ⟨sz, R, b, m⟩).attempts
           = R + 1) ∧
    (∀ (msgs : Nat → String) (sz b m : Nat),
       (process_batch (fun i => Except.error (msgs i)) ⟨sz, 2, b, m⟩).attempts = 3) ∧
    (∀ (e1 e2 : String) (count sz b m : Nat),
       (process_batch (failsTwiceThenOk e1 e2 count) ⟨sz, 2, b, m⟩).result
           = Except.ok count ∧
       (process_batch (failsTwiceThenOk e1 e2 count) ⟨sz, 2, b, m⟩).attempts = 3 ∧
       (process_batch (failsTwiceThenOk e1 e2 count) ⟨sz, 2, b, m⟩).sleptTotal
           = b + min (b * 2) m ∧
       (2 * b ≤ m →
         (process_batch (failsTwiceThenOk e1 e2 count) ⟨sz, 2, b, m⟩).sleptTotal
           = b + 2 * b)) := by
  refine ⟨?_, ?_, ?_⟩
  · intro msgs sz R b m
    exact process_batch_loop_always_fails msgs R m (R - 0) 0 b 0 rfl (by omega)
  · intro msgs sz b m
    exact (process_batch_loop_always_fails msgs 2 m 2 0 b 0 rfl (by omega)).2
  · intro e1 e2 count sz b m
    have step2 : ∀ backoff slept : Nat,
        process_batch_loop (failsTwiceThenOk e1 e2 count) 2 m 2 backoff slept
          = ⟨Except.ok count, 3, slept⟩ := by
      intro backoff slept
      rw [process_batch_loop]
      simp [failsTwiceThenOk]
    have step1 : ∀ backoff slept : Nat,
        process_batch_loop (failsTwiceThenOk e1 e2 count) 2 m 1 backoff slept
          = ⟨Except.ok count, 3, slept + backoff⟩ := by
      intro backoff slept
      rw [process_batch_loop]
      simp [failsTwiceThenOk, step2]
    have hrun : process_batch (failsTwiceThenOk e1 e2 count) ⟨sz, 2, b, m⟩
        = ⟨Except.ok count, 3, b + min (b * 2) m⟩ := by
      rw [process_batch]
      rw [process_batch_loop]
      simp [failsTwiceThenOk, step1]
    rw [hrun]
    refine ⟨rfl, rfl, rfl, ?_⟩
    intro hcap
    simp only [RunOutcome.sleptTotal]
    rw [show b * 2 = 2 * b from by omega, min_eq_left hcap]
